import Mathlib

/-!
Shallow embedding of the SQL migration runner (`package migrator`).

The Go source is embedded as follows:
* pure helpers (`parseFileName`, `checksum`, filename grammar, trimming)
  become Lean functions;
* the database is an explicit state (`DBState`): the tracking-table rows,
  a table-exists flag, a logical clock standing for `NOW()`, and a trace of
  the commands issued to the backend (used for temporal claims);
* backend nondeterminism (whether a given SQL statement, commit, upsert or
  delete succeeds, and the measured execution time) is an oracle record
  `DBBehavior`;
* the SHA-256 checksum is a parameter `hash : String → String`, since no
  claim depends on the concrete hash function, only on comparing its values;
* the filesystem (`os.DirFS` roots and embedded `fs.FS` bundles) is a map
  from directory names to optional file listings (`none` models a ReadDir
  failure) and files carry optional content (`none` models a read failure);
* the Go `panic` on checksum drift in `pendingUp` is modelled as a fatal
  error outcome (`MigError.drift`), since it aborts the whole call and
  propagates to the caller (the deferred unlock still runs, as in Go).
-/

namespace Migrator

/-- A versioned SQL change, mirroring Go `Migration`. -/
structure Migration where
  version : Int
  name : String
  dir : String
  file : String
  sql : String
  checksum : String
deriving DecidableEq, Repr

/-- One persisted tracking row, mirroring Go `appliedRow`.
`appliedAt` is a logical timestamp (the DB clock). -/
structure AppliedRow where
  version : Int
  name : String
  checksum : String
  appliedAt : Nat
  execMS : Int
  success : Bool
deriving DecidableEq, Repr

/-- Runner options, mirroring Go `Options` (the logger is omitted: it only
formats messages and has no effect on state). -/
structure FileEnt where
  name : String
  isDir : Bool
  content : Option String
deriving DecidableEq, Repr

/-- A filesystem root: the listing `fs.ReadDir(root, ".")` would return. -/
abbrev FSDir := List FileEnt

structure Options where
  migrationsDir : String
  migrationsDirs : List String
  embeddedFSs : List FSDir
  tableName : String
  lockKey : Int
  allowDangerousDown : Bool
deriving Repr

structure Runner where
  opts : Options
  migrations : List Migration
  loaded : Bool
deriving Repr

def defaultTable : String := "schema_migrations"

def defaultLock : Int := 913551337114213777

/-- Go `New`: fills in the default table name and lock key. The `*sql.DB`
handle is not part of the model (the backend is `DBBehavior`/`DBState`). -/
def New (opts : Options) : Runner :=
  let opts1 := if opts.tableName = "" then { opts with tableName := defaultTable } else opts
  let opts2 := if opts1.lockKey = 0 then { opts1 with lockKey := defaultLock } else opts1
  { opts := opts2, migrations := [], loaded := false }

/-! ### Filename parsing (`fileRe` and `parseFileName`) -/

def isDigitCh (c : Char) : Bool := '0' ≤ c && c ≤ '9'

def isNameCh (c : Char) : Bool :=
  ('a' ≤ c && c ≤ 'z') || ('A' ≤ c && c ≤ 'Z') || isDigitCh c || c = '_' || c = '-'

/-- `filepath.Base` on Unix: empty path gives ".", trailing slashes are
dropped, the last path element is returned, all-slash paths give "/". -/
def baseName (p : String) : String :=
  if p = "" then "." else
  let rcs := p.toList.reverse.dropWhile (· = '/')
  if rcs = [] then "/" else String.mk ((rcs.takeWhile (· ≠ '/')).reverse)

def digitsVal (ds : List Char) : Nat :=
  ds.foldl (fun n c => 10 * n + (c.toNat - '0'.toNat)) 0

/-- Go `parseFileName`: matches `^(\d{8,14})_([a-zA-Z0-9_\-]+)\.(up|down)\.sql$`
against `filepath.Base name`. Since `_` is not a digit and `.` is not a name
character, the regex groups are exactly the maximal digit run (required
length 8–14) and the maximal name-character run, followed literally by
`.up.sql` or `.down.sql`. Versions of 8–14 digits always fit in int64, so
`strconv.ParseInt` cannot fail. -/
def parseFileName (name : String) : Option Migration :=
  let cs := (baseName name).toList
  let digits := cs.takeWhile isDigitCh
  let rest := cs.dropWhile isDigitCh
  if 8 ≤ digits.length ∧ digits.length ≤ 14 then
    match rest with
    | '_' :: rest2 =>
      let nm := rest2.takeWhile isNameCh
      let rest3 := rest2.dropWhile isNameCh
      if nm = [] then none
      else if rest3 = ".up.sql".toList then
        some { version := Int.ofNat (digitsVal digits), name := String.mk nm,
               dir := "up", file := name, sql := "", checksum := "" }
      else if rest3 = ".down.sql".toList then
        some { version := Int.ofNat (digitsVal digits), name := String.mk nm,
               dir := "down", file := name, sql := "", checksum := "" }
      else none
    | _ => none
  else none

/-! ### Trimming (`strings.TrimSpace`, Go `unicode.IsSpace`) -/

def goIsSpace (c : Char) : Bool :=
  [9, 10, 11, 12, 13, 32, 0x85, 0xA0, 0x1680,
   0x2000, 0x2001, 0x2002, 0x2003, 0x2004, 0x2005, 0x2006, 0x2007,
   0x2008, 0x2009, 0x200A, 0x2028, 0x2029, 0x202F, 0x205F, 0x3000].contains c.toNat

def goTrimSpace (s : String) : String :=
  String.mk (((s.toList.dropWhile goIsSpace).reverse.dropWhile goIsSpace).reverse)

/-! ### Loading migrations (`loadMigrations`) -/

/-- The dedup loop in `loadMigrations`: drop empty names, keep the first
occurrence of each directory, preserve order. -/
def dedupDirs : List String → List String → List String
  | [], _ => []
  | d :: ds, seen =>
    if d = "" then dedupDirs ds seen
    else if seen.contains d then dedupDirs ds seen
    else d :: dedupDirs ds (d :: seen)

/-- Enumerate non-directory entries of each root in order
(`fs.ReadDir(root, ".")`); a `none` root is a ReadDir failure. -/
def readRoots : List (Option FSDir) → Except String (List FileEnt)
  | [] => .ok []
  | none :: _ => .error "readdir"
  | some d :: rest =>
    match readRoots rest with
    | .error e => .error e
    | .ok more => .ok (d.filter (fun e => !e.isDir) ++ more)

/-- The parse-and-collect loop of `loadMigrations`: skip non-matching names,
fail on a duplicate `(version, dir)` key (checked before the file is read),
fail on an unreadable file, otherwise trim, checksum and append. -/
def loadLoop (hash : String → String) :
    List FileEnt → List (Int × String) → List Migration → Except String (List Migration)
  | [], _, acc => .ok acc
  | f :: fs, seen, acc =>
    match parseFileName f.name with
    | none => loadLoop hash fs seen acc
    | some m =>
      if seen.contains (m.version, m.dir) then
        .error ("duplicate migration for version " ++ toString m.version ++ " dir " ++ m.dir)
      else
        match f.content with
        | none => .error ("read " ++ f.name)
        | some b =>
          let sql := goTrimSpace b
          loadLoop hash fs ((m.version, m.dir) :: seen)
            (acc ++ [{ m with sql := sql, checksum := hash sql }])

/-- Ordering used by the final `sort.Slice`: by version, then by the
direction string. `(version, dir)` keys are unique after the duplicate
check, so the (unstable) Go sort is deterministic and agrees with any
correct sort by this relation. -/
def migLE (a b : Migration) : Prop :=
  a.version < b.version ∨ (a.version = b.version ∧ (a.dir < b.dir ∨ a.dir = b.dir))

instance : DecidableRel migLE := fun a b => by
  unfold migLE; infer_instance

/-- The list of roots `loadMigrations` reads, in order: the legacy single
directory (if non-empty), then `MigrationsDirs` (deduplicated, empty names
dropped), each resolved through `os.DirFS`, then the embedded bundles
(`fs.Sub(efs, ".")` is the identity and cannot fail). -/
def rootsOf (dirFS : String → Option FSDir) (opts : Options) : List (Option FSDir) :=
  (dedupDirs ((if opts.migrationsDir ≠ "" then [opts.migrationsDir] else [])
      ++ opts.migrationsDirs) []).map dirFS
    ++ opts.embeddedFSs.map some

/-- Go `loadMigrations`. The filesystem is `dirFS : String → Option FSDir`
(`os.DirFS`; `none` surfaces later as the ReadDir failure). -/
def loadMigrations (hash : String → String) (dirFS : String → Option FSDir)
    (r : Runner) : Except String Runner :=
  if r.loaded then .ok r
  else if rootsOf dirFS r.opts = [] then .error "no migrations source provided"
  else
    match readRoots (rootsOf dirFS r.opts) with
    | .error e => .error e
    | .ok files =>
      match loadLoop hash files [] r.migrations with
      | .error e => .error e
      | .ok migs =>
        .ok { r with migrations := List.insertionSort migLE migs, loaded := true }

/-! ### Database model -/

/-- One command issued to the backend. Commands inside a transaction are
traced when issued; whether their data effect survives depends on
commit/rollback, which the row-state transitions capture separately. -/
inductive Event where
  | lockAcquired (key : Int)
  | lockReleased (key : Int)
  | ensureTable (table : String)
  | queryApplied (table : String)
  | beginTx
  | execSQL (sql : String)
  | execDelete (version : Int)
  | commitTx
  | rollbackTx
  | upsert (version : Int) (success : Bool)
deriving DecidableEq, Repr

structure DBState where
  tableExists : Bool
  rows : List AppliedRow
  clock : Nat
  trace : List Event
deriving DecidableEq, Repr

def addEvent (s : DBState) (e : Event) : DBState :=
  { s with trace := s.trace ++ [e] }

/-- Backend oracles: which commands succeed and what time is measured. -/
structure DBBehavior where
  lockOk : Bool
  ensureOk : Bool
  queryOk : Bool
  beginOk : Bool
  execOk : String → Bool
  commitOk : Int → Bool
  recordOk : Int → Bool
  deleteOk : Int → Bool
  execMS : String → Int

inductive MigError where
  | lockFailed
  | ensureFailed
  | loadErr (msg : String)
  | queryFailed
  | drift (version : Int) (stored wanted : String)
  | beginFailed
  | execFailed (version : Int)
  | commitFailed (version : Int)
  | recordFailed (version : Int)
  | downDisabled
  | noDown (version : Int) (name : String)
  | revertExecFailed (version : Int)
  | deleteFailed (version : Int)
  | revertRowCount (version : Int) (table : String)
deriving DecidableEq, Repr

/-- `CREATE TABLE IF NOT EXISTS …` (Go `ensureTable`). -/
def ensureTable (b : DBBehavior) (table : String) (s : DBState) :
    Except MigError Unit × DBState :=
  if b.ensureOk then (.ok (), { addEvent s (.ensureTable table) with tableExists := true })
  else (.error .ensureFailed, s)

/-- Row order of `loadApplied`'s query: `ORDER BY applied_at ASC, version ASC`. -/
def rowLE (a b : AppliedRow) : Prop :=
  a.appliedAt < b.appliedAt ∨ (a.appliedAt = b.appliedAt ∧ a.version ≤ b.version)

instance : DecidableRel rowLE := fun a b => by
  unfold rowLE; infer_instance

/-- Go `loadApplied`: read every tracking row, ordered by
`(applied_at, version)`. -/
def loadApplied (b : DBBehavior) (table : String) (s : DBState) :
    Except MigError (List AppliedRow) × DBState :=
  if b.queryOk then (.ok (List.insertionSort rowLE s.rows), addEvent s (.queryApplied table))
  else (.error .queryFailed, s)

/-- Go `loadAppliedSuccess`: `loadApplied` filtered to `success=true` rows. -/
def loadAppliedSuccess (b : DBBehavior) (table : String) (s : DBState) :
    Except MigError (List AppliedRow) × DBState :=
  match loadApplied b table s with
  | (.error e, s1) => (.error e, s1)
  | (.ok all, s1) => (.ok (all.filter (fun a => a.success)), s1)

/-! ### Pending computation (`pendingUp`) -/

/-- The `appliedSet` map of Go `pendingUp`: iterating `applied` in order and
storing each `success=true` row under its version; a later row with the same
version overwrites an earlier one (versions are unique in a real table). -/
def appliedSetLookup (applied : List AppliedRow) (v : Int) : Option AppliedRow :=
  applied.foldl
    (fun acc a => if a.success then (if a.version = v then some a else acc) else acc)
    none

/-- The main loop of Go `pendingUp`. A checksum mismatch on an applied
version is a Go `panic`, modelled as the fatal `MigError.drift`. -/
def pendingUpAux (applied : List AppliedRow) : List Migration → Except MigError (List Migration)
  | [] => .ok []
  | m :: ms =>
    if m.dir ≠ "up" then pendingUpAux applied ms
    else
      match appliedSetLookup applied m.version with
      | some a =>
        if a.checksum ≠ m.checksum then .error (.drift m.version a.checksum m.checksum)
        else pendingUpAux applied ms
      | none =>
        match pendingUpAux applied ms with
        | .ok rest => .ok (m :: rest)
        | .error e => .error e

def pendingVersionLE (a b : Migration) : Prop := a.version ≤ b.version

instance : DecidableRel pendingVersionLE := fun a b => by
  unfold pendingVersionLE; infer_instance

/-- Go `pendingUp`: collect unapplied up scripts, then `sort.Slice` by
version (versions of up scripts are unique after load, so the unstable sort
is deterministic). -/
def pendingUp (migs : List Migration) (applied : List AppliedRow) :
    Except MigError (List Migration) :=
  match pendingUpAux applied migs with
  | .error e => .error e
  | .ok p => .ok (List.insertionSort pendingVersionLE p)

/-! ### Recording and applying (`record`, `applyOne`), reverting (`revertOne`) -/

/-- `INSERT … ON CONFLICT (version) DO UPDATE`: replace the row with the
same version in place, or append a new row. -/
def upsertRow (rows : List AppliedRow) (a : AppliedRow) : List AppliedRow :=
  if rows.any (fun x => x.version = a.version) then
    rows.map (fun x => if x.version = a.version then a else x)
  else rows ++ [a]

/-- Go `record`: upsert one tracking row; `applied_at` is `NOW()`, modelled
by the state clock (incremented per write). Runs on `r.DB`, outside any
transaction of `applyOne`. -/
def record (b : DBBehavior) (m : Migration) (execMS : Int) (ok : Bool)
    (s : DBState) : Except MigError Unit × DBState :=
  if b.recordOk m.version then
    (.ok (),
      { addEvent s (.upsert m.version ok) with
        rows := upsertRow s.rows
          { version := m.version, name := m.name, checksum := m.checksum,
            appliedAt := s.clock, execMS := execMS, success := ok },
        clock := s.clock + 1 })
  else (.error (.recordFailed m.version), s)

/-- Go `applyOne`: begin a transaction, execute the script's SQL, measure
elapsed time. On execution failure: rollback, record `success=false`
(the record call's own error is discarded, `_ = r.record(…)`), return the
execution error. On commit failure: record `success=false` (error again
discarded), return the commit error. On success: commit, then return the
result of recording `success=true` (that record error IS surfaced). The
migration SQL is raw DDL/DML against application tables, so it does not
change the tracking rows in the model. -/
def applyOne (b : DBBehavior) (m : Migration) (s : DBState) :
    Except MigError Unit × DBState :=
  if b.beginOk then
    let s1 := addEvent (addEvent s .beginTx) (.execSQL m.sql)
    let ms := b.execMS m.sql
    if b.execOk m.sql then
      if b.commitOk m.version then
        record b m ms true (addEvent s1 .commitTx)
      else
        let (_, s2) := record b m ms false s1
        (.error (.commitFailed m.version), s2)
    else
      let (_, s2) := record b m ms false (addEvent s1 .rollbackTx)
      (.error (.execFailed m.version), s2)
  else (.error .beginFailed, s)

/-- The loop body of `Up`: apply each pending migration in order, stopping
at the first error. -/
def applyAll (b : DBBehavior) : List Migration → DBState → Except MigError Unit × DBState
  | [], s => (.ok (), s)
  | m :: ms, s =>
    match applyOne b m s with
    | (.ok _, s1) => applyAll b ms s1
    | (.error e, s1) => (.error e, s1)

/-- Go `revertOne`: in one transaction, run the down SQL first (skipped when
its trimmed body is empty), then `DELETE FROM table WHERE version = $1`.
`RowsAffected` is the number of tracking rows matching the version; any
count other than 1 rolls back with an integrity error. The delete's data
effect is applied only at commit; a failed commit leaves the rows
unchanged and returns the commit error. -/
def revertOne (b : DBBehavior) (table : String) (m : Migration) (s : DBState) :
    Except MigError Unit × DBState :=
  if b.beginOk then
    let s1 := addEvent s .beginTx
    let s2 := if goTrimSpace m.sql ≠ "" then addEvent s1 (.execSQL m.sql) else s1
    if goTrimSpace m.sql ≠ "" ∧ ¬ b.execOk m.sql then
      (.error (.revertExecFailed m.version), addEvent s2 .rollbackTx)
    else
      let s3 := addEvent s2 (.execDelete m.version)
      if b.deleteOk m.version then
        let aff : Nat := (s.rows.filter (fun a => a.version = m.version)).length
        if aff ≠ 1 then
          (.error (.revertRowCount m.version table), addEvent s3 .rollbackTx)
        else if b.commitOk m.version then
          (.ok (),
            { addEvent s3 .commitTx with
              rows := s3.rows.filter (fun a => a.version ≠ m.version) })
        else (.error (.commitFailed m.version), s3)
      else (.error (.deleteFailed m.version), addEvent s3 .rollbackTx)
  else (.error .beginFailed, s)

/-! ### Locking and the public operations (`withLock`, `Up`, `Down`) -/

/-- Go `withLock`: `SELECT pg_advisory_lock($1)` before the block; the
deferred `pg_advisory_unlock` always runs afterwards (its error is
ignored), including when the block fails — and, in Go, also while a panic
unwinds. The 10-minute internal timeout is a real-time bound with no
state-level effect and is not modelled. -/
def withLock {ρ : Type} (b : DBBehavior) (key : Int) (onLockErr : ρ)
    (fn : DBState → ρ × DBState) (s : DBState) : ρ × DBState :=
  if b.lockOk then
    let (res, s1) := fn (addEvent s (.lockAcquired key))
    (res, addEvent s1 (.lockReleased key))
  else (onLockErr, s)

/-- The body of Go `Up` inside the lock: ensure table, load migrations,
read applied rows, compute pending, apply all pending in order. -/
def upBody (hash : String → String) (dirFS : String → Option FSDir)
    (b : DBBehavior) (r : Runner) (s : DBState) :
    (Except MigError Unit × Runner) × DBState :=
  match ensureTable b r.opts.tableName s with
  | (.error e, s1) => ((.error e, r), s1)
  | (.ok _, s1) =>
    match loadMigrations hash dirFS r with
    | .error msg => ((.error (.loadErr msg), r), s1)
    | .ok r1 =>
      match loadApplied b r1.opts.tableName s1 with
      | (.error e, s2) => ((.error e, r1), s2)
      | (.ok applied, s2) =>
        match pendingUp r1.migrations applied with
        | .error e => ((.error e, r1), s2)
        | .ok pending =>
          if pending = [] then ((.ok (), r1), s2)
          else
            let (res, s3) := applyAll b pending s2
            ((res, r1), s3)

/-- Go `Up`. Returns the call result together with the updated runner
(migration cache) and database state. -/
def Up (hash : String → String) (dirFS : String → Option FSDir)
    (b : DBBehavior) (r : Runner) (s : DBState) :
    (Except MigError Unit × Runner) × DBState :=
  withLock b r.opts.lockKey (.error .lockFailed, r) (upBody hash dirFS b r) s

/-- Go `find`: first loaded migration with the given version and direction. -/
def find (r : Runner) (version : Int) (dir : String) : Option Migration :=
  r.migrations.find? (fun m => m.version = version ∧ m.dir = dir)

/-- The body of Go `Down` inside the lock: ensure table, load migrations,
read `success=true` rows; an empty list is a successful no-op; otherwise
revert the last row's version, failing if it has no down script. -/
def downBody (hash : String → String) (dirFS : String → Option FSDir)
    (b : DBBehavior) (r : Runner) (s : DBState) :
    (Except MigError Unit × Runner) × DBState :=
  match ensureTable b r.opts.tableName s with
  | (.error e, s1) => ((.error e, r), s1)
  | (.ok _, s1) =>
    match loadMigrations hash dirFS r with
    | .error msg => ((.error (.loadErr msg), r), s1)
    | .ok r1 =>
      match loadAppliedSuccess b r1.opts.tableName s1 with
      | (.error e, s2) => ((.error e, r1), s2)
      | (.ok appliedOK, s2) =>
        match appliedOK.getLast? with
        | none => ((.ok (), r1), s2)
        | some latest =>
          match find r1 latest.version "down" with
          | none => ((.error (.noDown latest.version latest.name), r1), s2)
          | some down =>
            let (res, s3) := revertOne b r1.opts.tableName down s2
            ((res, r1), s3)

/-- Go `Down`: a fixed "disabled" error when `AllowDangerousDown` is false
(before the lock and before any backend command); otherwise the locked body. -/
def Down (hash : String → String) (dirFS : String → Option FSDir)
    (b : DBBehavior) (r : Runner) (s : DBState) :
    (Except MigError Unit × Runner) × DBState :=
  if ¬ r.opts.allowDangerousDown then ((.error .downDisabled, r), s)
  else withLock b r.opts.lockKey (.error .lockFailed, r) (downBody hash dirFS b r) s

/-! ### Basic lemmas about the embedding -/

theorem loadMigrations_ok_opts {hash : String → String} {dirFS : String → Option FSDir}
    {r r1 : Runner} (h : loadMigrations hash dirFS r = .ok r1) : r1.opts = r.opts := by
  unfold loadMigrations at h
  repeat' split at h
  all_goals simp only [Except.ok.injEq, reduceCtorEq] at h
  all_goals rw [← h]

theorem loadMigrations_ok_loaded {hash : String → String} {dirFS : String → Option FSDir}
    {r r1 : Runner} (h : loadMigrations hash dirFS r = .ok r1) : r1.loaded = true := by
  unfold loadMigrations at h
  split at h
  case isTrue hl => cases h; exact hl
  case isFalse =>
    repeat' split at h
    all_goals simp only [Except.ok.injEq, reduceCtorEq] at h
    rw [← h]

/-- A runner whose cache is already loaded reloads nothing. -/
theorem loadMigrations_loaded {hash : String → String} {dirFS : String → Option FSDir}
    {r : Runner} (h : r.loaded = true) : loadMigrations hash dirFS r = .ok r := by
  unfold loadMigrations
  simp [h]

/-! ### Concrete fixtures used by witnesses and counterexamples -/

def sampleHash : String → String := fun s => "sha:" ++ s

def noFS : String → Option FSDir := fun _ => none

/-- A backend on which every command succeeds and every script takes 5 ms. -/
def okBeh : DBBehavior :=
  { lockOk := true, ensureOk := true, queryOk := true, beginOk := true,
    execOk := fun _ => true, commitOk := fun _ => true,
    recordOk := fun _ => true, deleteOk := fun _ => true, execMS := fun _ => 5 }

def emptyState : DBState := { tableExists := false, rows := [], clock := 0, trace := [] }

/-! ### C6 — Down while disabled -/

/-- C6: For every Down call while reverting is disabled
(`AllowDangerousDown=false`), the call returns the same fixed "disabled"
error immediately and performs zero writes: no lock acquisition, no table
creation, no row change — the runner and database state are returned
entirely unchanged. -/
theorem down_disabled_noop (hash : String → String) (dirFS : String → Option FSDir)
    (b : DBBehavior) (r : Runner) (s : DBState)
    (h : r.opts.allowDangerousDown = false) :
    Down hash dirFS b r s = ((.error .downDisabled, r), s) := by
  unfold Down
  simp [h]

theorem down_disabled_noop_witness :
    Down sampleHash noFS okBeh
      (New { migrationsDir := "", migrationsDirs := [], embeddedFSs := [],
             tableName := "", lockKey := 0, allowDangerousDown := false })
      emptyState
    = ((.error .downDisabled,
        New { migrationsDir := "", migrationsDirs := [], embeddedFSs := [],
              tableName := "", lockKey := 0, allowDangerousDown := false }),
       emptyState) :=
  down_disabled_noop sampleHash noFS okBeh _ emptyState rfl

/-! ### C9 — defaults filled in by `New` -/

/-- C9: For every Runner constructed via `New`, a configured table name of
`""` is replaced by the default `"schema_migrations"` and a configured lock
key of `0` is replaced by the default constant `913551337114213777`; any
other configured value is kept; consequently no constructed runner has `0`
as the advisory lock key or the empty string as the table name. -/
theorem new_defaults (opts : Options) :
    ((New opts).opts.tableName = if opts.tableName = "" then defaultTable else opts.tableName)
    ∧ ((New opts).opts.lockKey = if opts.lockKey = 0 then defaultLock else opts.lockKey)
    ∧ (New opts).opts.tableName ≠ ""
    ∧ (New opts).opts.lockKey ≠ 0 := by
  unfold New defaultTable defaultLock
  by_cases ht : opts.tableName = "" <;> by_cases hk : opts.lockKey = 0 <;>
    simp_all

/-! ### C10 — Down with no successful record is a successful no-op -/

/-- C10: For every Down call with reverting enabled, if no `success=true`
applied record exists, the call returns `ok` (a successful no-op): no Down
script is executed and no tracking row is deleted — the only backend
commands are the lock, the idempotent table create, the row query, and the
unlock, and the rows are unchanged. -/
theorem down_no_success_noop (hash : String → String) (dirFS : String → Option FSDir)
    (b : DBBehavior) (r r1 : Runner) (s : DBState)
    (ha : r.opts.allowDangerousDown = true)
    (hl : b.lockOk = true) (he : b.ensureOk = true) (hq : b.queryOk = true)
    (hload : loadMigrations hash dirFS r = .ok r1)
    (hns : ∀ a ∈ s.rows, a.success = false) :
    Down hash dirFS b r s = ((.ok (), r1),
      { s with
        tableExists := true
        trace := s.trace ++ [.lockAcquired r.opts.lockKey, .ensureTable r.opts.tableName,
          .queryApplied r.opts.tableName, .lockReleased r.opts.lockKey] }) := by
  have hopts : r1.opts = r.opts := loadMigrations_ok_opts hload
  have hfil : (List.insertionSort rowLE s.rows).filter (fun a => a.success) = [] := by
    rw [List.filter_eq_nil_iff]
    intro a hmem
    have : a ∈ s.rows := (List.perm_insertionSort rowLE s.rows).mem_iff.mp hmem
    simp [hns a this]
  unfold Down withLock downBody ensureTable loadAppliedSuccess loadApplied addEvent
  simp [ha, hl, he, hq, hload, hopts, hfil]

theorem down_no_success_noop_witness :
    Down sampleHash noFS okBeh
      { opts := { migrationsDir := "", migrationsDirs := [], embeddedFSs := [],
                  tableName := "t", lockKey := 9, allowDangerousDown := true },
        migrations := [], loaded := true }
      { tableExists := true,
        rows := [{ version := 1, name := "one", checksum := "c", appliedAt := 4,
                   execMS := 0, success := false }],
        clock := 7, trace := [] }
    = ((.ok (),
        { opts := { migrationsDir := "", migrationsDirs := [], embeddedFSs := [],
                    tableName := "t", lockKey := 9, allowDangerousDown := true },
          migrations := [], loaded := true }),
       { tableExists := true,
         rows := [{ version := 1, name := "one", checksum := "c", appliedAt := 4,
                    execMS := 0, success := false }],
         clock := 7,
         trace := [.lockAcquired 9, .ensureTable "t", .queryApplied "t",
                   .lockReleased 9] }) := by
  have := down_no_success_noop sampleHash noFS okBeh
    { opts := { migrationsDir := "", migrationsDirs := [], embeddedFSs := [],
                tableName := "t", lockKey := 9, allowDangerousDown := true },
      migrations := [], loaded := true }
    { opts := { migrationsDir := "", migrationsDirs := [], embeddedFSs := [],
                tableName := "t", lockKey := 9, allowDangerousDown := true },
      migrations := [], loaded := true }
    { tableExists := true,
      rows := [{ version := 1, name := "one", checksum := "c", appliedAt := 4,
                 execMS := 0, success := false }],
      clock := 7, trace := [] }
    rfl rfl rfl rfl (loadMigrations_loaded rfl) (by decide)
  simpa using this

/-! ### C5 — revert order and integrity check -/

/-- C5: For every revert of a version, within a single transaction the Down
SQL is executed first (skipped when its trimmed body is empty) and the
tracking row for that version is deleted second — the trace shows
`beginTx`, the optional `execSQL`, then `execDelete`. If the number of rows
matching the version is not exactly one, the transaction is rolled back
(rows unchanged) and an integrity error is returned; the transaction is
committed, and the row removed, only after both steps succeed. -/
theorem revertOne_order_and_integrity (b : DBBehavior) (table : String)
    (m : Migration) (s : DBState) (hb : b.beginOk = true) :
    (((s.rows.filter (fun a => a.version = m.version)).length = 1 →
      (goTrimSpace m.sql = "" ∨ b.execOk m.sql = true) →
      b.deleteOk m.version = true → b.commitOk m.version = true →
      revertOne b table m s = (.ok (),
        { s with
          rows := s.rows.filter (fun a => a.version ≠ m.version)
          trace := s.trace ++ [Event.beginTx]
            ++ (if goTrimSpace m.sql ≠ "" then [Event.execSQL m.sql] else [])
            ++ [Event.execDelete m.version, Event.commitTx] }))
    ∧ ((s.rows.filter (fun a => a.version = m.version)).length ≠ 1 →
      (goTrimSpace m.sql = "" ∨ b.execOk m.sql = true) →
      b.deleteOk m.version = true →
      revertOne b table m s = (.error (.revertRowCount m.version table),
        { s with
          trace := s.trace ++ [Event.beginTx]
            ++ (if goTrimSpace m.sql ≠ "" then [Event.execSQL m.sql] else [])
            ++ [Event.execDelete m.version, Event.rollbackTx] }))) := by
  constructor
  · intro hcount hexec hdel hcommit
    unfold revertOne addEvent
    rcases hexec with hte | hex
    · simp [hb, hte, hdel, hcount, hcommit]
    · by_cases hts : goTrimSpace m.sql = "" <;>
        simp [hb, hts, hex, hdel, hcount, hcommit]
  · intro hcount hexec hdel
    unfold revertOne addEvent
    rcases hexec with hte | hex
    · simp [hb, hte, hdel, hcount]
    · by_cases hts : goTrimSpace m.sql = "" <;>
        simp [hb, hts, hex, hdel, hcount]

theorem revertOne_order_and_integrity_witness :
    ((okBeh.beginOk = true) ∧
     revertOne okBeh "t"
       { version := 3, name := "x", dir := "down", file := "f", sql := "drop t;",
         checksum := "c" }
       { tableExists := true,
         rows := [{ version := 3, name := "x", checksum := "c", appliedAt := 0,
                    execMS := 0, success := true }],
         clock := 1, trace := [] }
     = (.ok (),
        { tableExists := true, rows := [], clock := 1,
          trace := [Event.beginTx, Event.execSQL "drop t;", Event.execDelete 3,
                    Event.commitTx] })) ∧
    revertOne okBeh "t"
      { version := 4, name := "y", dir := "down", file := "g", sql := "drop u;",
        checksum := "d" }
      { tableExists := true, rows := [], clock := 1, trace := [] }
    = (.error (.revertRowCount 4 "t"),
       { tableExists := true, rows := [], clock := 1,
         trace := [Event.beginTx, Event.execSQL "drop u;", Event.execDelete 4,
                   Event.rollbackTx] }) := by
  refine ⟨⟨rfl, ?_⟩, ?_⟩
  · have h := (revertOne_order_and_integrity okBeh "t"
      { version := 3, name := "x", dir := "down", file := "f", sql := "drop t;",
        checksum := "c" }
      { tableExists := true,
        rows := [{ version := 3, name := "x", checksum := "c", appliedAt := 0,
                   execMS := 0, success := true }],
        clock := 1, trace := [] } rfl).1 (by decide) (Or.inr rfl) rfl rfl
    simpa using h
  · have h := (revertOne_order_and_integrity okBeh "t"
      { version := 4, name := "y", dir := "down", file := "g", sql := "drop u;",
        checksum := "d" }
      { tableExists := true, rows := [], clock := 1, trace := [] } rfl).2
      (by decide) (Or.inr rfl) rfl
    simpa using h

/-! ### C8 — which errors are surfaced -/

/-- Fixture for the C8 counterexample: the backend fails both the script's
SQL execution and the subsequent upsert of the `success=false` record. -/
def failBeh : DBBehavior :=
  { lockOk := true, ensureOk := true, queryOk := true, beginOk := true,
    execOk := fun _ => false, commitOk := fun _ => true,
    recordOk := fun _ => false, deleteOk := fun _ => true, execMS := fun _ => 5 }

def mC8 : Migration :=
  { version := 1, name := "one", dir := "up", file := "f", sql := "create x;",
    checksum := "c" }

def rC8 : Runner :=
  { opts := { migrationsDir := "", migrationsDirs := [], embeddedFSs := [],
              tableName := "t", lockKey := 9, allowDangerousDown := false },
    migrations := [mC8], loaded := true }

/-- C8 counterexample: the claim says that when a script's execution fails,
an error from persisting the `success=false` applied record is also
surfaced. On this input the execution fails AND the record upsert fails
(`failBeh.recordOk 1 = false`, and indeed no row is persisted), yet the Up
call returns only the execution error `.execFailed 1` — the record error
`.recordFailed 1` is discarded (Go: `_ = r.record(…)`). -/
theorem up_record_error_discarded_cex :
    failBeh.recordOk 1 = false
    ∧ (Up sampleHash noFS failBeh rC8 emptyState).1.1 = .error (.execFailed 1)
    ∧ (Up sampleHash noFS failBeh rC8 emptyState).2.rows = []
    ∧ MigError.execFailed 1 ≠ MigError.recordFailed 1 := by
  refine ⟨rfl, rfl, rfl, by decide⟩

/-- C8 amended: every error of the run is surfaced except on the two failed
paths of `applyOne`: when the script's execution fails, the execution error
is returned and a failure of persisting the `success=false` record is
discarded; when the commit fails, the commit error is returned and the
record-persistence failure is likewise discarded; only after a successful
execution and commit is an error from persisting the `success=true` record
surfaced. -/
theorem applyOne_error_surfacing (b : DBBehavior) (m : Migration) (s : DBState)
    (hb : b.beginOk = true) :
    ((b.execOk m.sql = false → (applyOne b m s).1 = .error (.execFailed m.version))
    ∧ (b.execOk m.sql = true → b.commitOk m.version = false →
        (applyOne b m s).1 = .error (.commitFailed m.version))
    ∧ (b.execOk m.sql = true → b.commitOk m.version = true →
        b.recordOk m.version = false →
        (applyOne b m s).1 = .error (.recordFailed m.version))) := by
  refine ⟨?_, ?_, ?_⟩
  · intro hex
    unfold applyOne record
    by_cases hr : b.recordOk m.version = true <;> simp [hb, hex, hr]
  · intro hex hc
    unfold applyOne record
    by_cases hr : b.recordOk m.version = true <;> simp [hb, hex, hc, hr]
  · intro hex hc hr
    unfold applyOne record
    simp [hb, hex, hc, hr]

theorem applyOne_error_surfacing_witness :
    (failBeh.beginOk = true ∧ failBeh.execOk mC8.sql = false)
    ∧ (applyOne failBeh mC8 emptyState).1 = .error (.execFailed 1) := by
  refine ⟨⟨rfl, rfl⟩, ?_⟩
  exact (applyOne_error_surfacing failBeh mC8 emptyState rfl).1 rfl

/-! ### C2 — which record Down reverts -/

def optsC2 : Options :=
  { migrationsDir := "", migrationsDirs := [], embeddedFSs := [],
    tableName := "t", lockKey := 1, allowDangerousDown := true }

/-- Version 1 was applied after version 2 (`appliedAt 5 > appliedAt 3`),
e.g. because the lower-numbered script was added to the sources later. -/
def rowsC2 : List AppliedRow :=
  [{ version := 1, name := "one", checksum := "c1", appliedAt := 5, execMS := 0, success := true },
   { version := 2, name := "two", checksum := "c2", appliedAt := 3, execMS := 0, success := true }]

def migsC2 : List Migration :=
  [{ version := 1, name := "one", dir := "down", file := "f1", sql := "drop a;", checksum := "x" },
   { version := 2, name := "two", dir := "down", file := "f2", sql := "drop b;", checksum := "y" }]

def rC2 : Runner := { opts := optsC2, migrations := migsC2, loaded := true }

def sC2 : DBState := { tableExists := true, rows := rowsC2, clock := 10, trace := [] }

/-- C2 counterexample: both versions 1 and 2 have `success=true` records and
both have Down scripts; the greatest version is 2, but `Down` succeeds by
reverting version 1 — the one last in `(applied_at, version)` order — and
the row of version 2 (the greatest) is still present afterwards. So the
record chosen for revert is NOT the `success=true` record with the greatest
version number. -/
theorem down_not_greatest_version_cex :
    (sC2.rows.map (fun a => (a.version, a.success)) = [(1, true), (2, true)])
    ∧ (find rC2 2 "down").isSome = true
    ∧ (Down sampleHash noFS okBeh rC2 sC2).1.1 = .ok ()
    ∧ (Down sampleHash noFS okBeh rC2 sC2).2.rows.map (fun a => a.version) = [2] := by
  exact ⟨rfl, rfl, rfl, rfl⟩

/-- C2 amended: For every Down call with reverting enabled and at least one
`success=true` applied record, the record chosen for revert is the LAST
`success=true` record in `(applied_at asc, version asc)` order — the most
recently applied one, not necessarily the greatest version number; its
paired Down script is looked up by that record's version, and if no such
Down script is loaded, Down returns a "no down migration" error without
performing any write (rows unchanged, no transaction begun). -/
theorem down_reverts_most_recent_applied (hash : String → String)
    (dirFS : String → Option FSDir) (b : DBBehavior) (r r1 : Runner)
    (s : DBState) (latest : AppliedRow)
    (ha : r.opts.allowDangerousDown = true)
    (hl : b.lockOk = true) (he : b.ensureOk = true) (hq : b.queryOk = true)
    (hload : loadMigrations hash dirFS r = .ok r1)
    (hlast : ((List.insertionSort rowLE s.rows).filter
      (fun a => a.success)).getLast? = some latest)
    (hfind : find r1 latest.version "down" = none) :
    Down hash dirFS b r s = ((.error (.noDown latest.version latest.name), r1),
      { s with
        tableExists := true
        trace := s.trace ++ [.lockAcquired r.opts.lockKey, .ensureTable r.opts.tableName,
          .queryApplied r.opts.tableName, .lockReleased r.opts.lockKey] }) := by
  have hopts : r1.opts = r.opts := loadMigrations_ok_opts hload
  unfold Down withLock downBody ensureTable loadAppliedSuccess loadApplied addEvent
  simp [ha, hl, he, hq, hload, hopts, hlast, hfind]

def rC2b : Runner :=
  { opts := optsC2,
    migrations := [{ version := 2, name := "two", dir := "down", file := "f2",
                     sql := "drop b;", checksum := "y" }],
    loaded := true }

theorem down_reverts_most_recent_applied_witness :
    Down sampleHash noFS okBeh rC2b sC2 = ((.error (.noDown 1 "one"), rC2b),
      { sC2 with
        tableExists := true
        trace := [.lockAcquired 1, .ensureTable "t", .queryApplied "t",
          .lockReleased 1] }) := by
  have h := down_reverts_most_recent_applied sampleHash noFS okBeh rC2b rC2b sC2
    (rowsC2.get ⟨0, by decide⟩) rfl rfl rfl rfl (loadMigrations_loaded rfl) rfl rfl
  simpa using h

/-! ### C3 — where in the Up flow a duplicate (version, direction) fails -/

/-- The `(version, direction)` keys of the migration files among `files`,
in enumeration order. -/
def migKeys (files : List FileEnt) : List (Int × String) :=
  (files.filterMap (fun f => parseFileName f.name)).map (fun m => (m.version, m.dir))

/-- If the aggregated files contain a duplicate `(version, direction)` key
(or one already seen) and every file is readable, the parse-and-collect
loop fails with a duplicate error. -/
theorem loadLoop_duplicate_fails (hash : String → String) :
    ∀ (files : List FileEnt) (seen : List (Int × String)) (acc : List Migration),
    (∀ f ∈ files, f.content.isSome = true) →
    (¬ (migKeys files).Nodup ∨ ∃ k ∈ migKeys files, k ∈ seen) →
    ∃ (v : Int) (d : String), loadLoop hash files seen acc =
      .error ("duplicate migration for version " ++ toString v ++ " dir " ++ d) := by
  intro files
  induction files with
  | nil =>
    intro seen acc _ hdup
    simp [migKeys] at hdup
  | cons f fs ih =>
    intro seen acc hread hdup
    have hreadf : f.content.isSome = true := hread f (by simp)
    have hreadfs : ∀ g ∈ fs, g.content.isSome = true := fun g hg => hread g (by simp [hg])
    cases hp : parseFileName f.name with
    | none =>
      have hkeys : migKeys (f :: fs) = migKeys fs := by
        simp [migKeys, List.filterMap_cons, hp]
      rw [hkeys] at hdup
      obtain ⟨v, d, hvd⟩ := ih seen acc hreadfs hdup
      exact ⟨v, d, by simpa [loadLoop, hp] using hvd⟩
    | some m =>
      have hkeys : migKeys (f :: fs) = (m.version, m.dir) :: migKeys fs := by
        simp [migKeys, List.filterMap_cons, hp]
      by_cases hseen : (m.version, m.dir) ∈ seen
      · exact ⟨m.version, m.dir, by simp [loadLoop, hp, hseen]⟩
      · obtain ⟨b, hb⟩ := Option.isSome_iff_exists.mp hreadf
        have hdup2 : ¬ (migKeys fs).Nodup
            ∨ ∃ k ∈ migKeys fs, k ∈ (m.version, m.dir) :: seen := by
          rw [hkeys] at hdup
          rcases hdup with hnd | ⟨k, hk, hkseen⟩
          · rw [List.nodup_cons] at hnd
            push_neg at hnd
            by_cases hmem : (m.version, m.dir) ∈ migKeys fs
            · exact Or.inr ⟨(m.version, m.dir), hmem, by simp⟩
            · exact Or.inl (hnd hmem)
          · rcases List.mem_cons.mp hk with hkm | hkfs
            · exact absurd (hkm ▸ hkseen) hseen
            · exact Or.inr ⟨k, hkfs, by simp [hkseen]⟩
        obtain ⟨v, d, hvd⟩ := ih ((m.version, m.dir) :: seen)
          (acc ++ [{ m with sql := goTrimSpace b, checksum := hash (goTrimSpace b) }])
          hreadfs hdup2
        exact ⟨v, d, by simpa [loadLoop, hp, hseen, hb] using hvd⟩

/-- C3 amended: a duplicate `(version, direction)` pair across two
configured sources makes `loadMigrations` fail with a duplicate error
(second conjunct, assuming all files are readable); and any load failure
makes Up return that error AFTER the advisory lock is acquired and AFTER
the tracking table is ensured — but before the applied rows are read,
before any script is executed and before any record is written (first
conjunct: the only traced commands are lock, ensure-table, unlock, and the
rows are unchanged). The original claim's "before the lock is acquired and
before the table is touched" is what fails (see the counterexample). -/
theorem up_load_failure_after_lock (hash : String → String)
    (dirFS : String → Option FSDir) (b : DBBehavior) (r : Runner) (s : DBState)
    (hl : b.lockOk = true) (he : b.ensureOk = true) :
    (∀ msg, loadMigrations hash dirFS r = .error msg →
      Up hash dirFS b r s = ((.error (.loadErr msg), r),
        { s with
          tableExists := true
          trace := s.trace ++ [.lockAcquired r.opts.lockKey,
            .ensureTable r.opts.tableName, .lockReleased r.opts.lockKey] }))
    ∧ (r.loaded = false → ∀ files : List FileEnt,
        readRoots (rootsOf dirFS r.opts) = .ok files →
        (∀ f ∈ files, f.content.isSome = true) → ¬ (migKeys files).Nodup →
        ∃ (v : Int) (d : String), loadMigrations hash dirFS r =
          .error ("duplicate migration for version " ++ toString v ++ " dir " ++ d)) := by
  constructor
  · intro msg hload
    unfold Up withLock upBody ensureTable addEvent
    simp [hl, he, hload]
  · intro hnl files hroots hread hdup
    obtain ⟨v, d, hvd⟩ := loadLoop_duplicate_fails hash files [] r.migrations hread
      (Or.inl hdup)
    refine ⟨v, d, ?_⟩
    unfold loadMigrations
    rw [if_neg (by simp [hnl])]
    have hne : ¬ rootsOf dirFS r.opts = [] := by
      intro hnil
      rw [hnil] at hroots
      simp [readRoots] at hroots
      rw [hroots] at hdup
      simp [migKeys] at hdup
    rw [if_neg hne, hroots]
    simp [hvd]

def fsC3a : FSDir := [{ name := "20240101_first.up.sql", isDir := false, content := some "create a;" }]

def fsC3b : FSDir := [{ name := "20240101_other.up.sql", isDir := false, content := some "create b;" }]

def worldC3 : String → Option FSDir := fun d =>
  if d = "a" then some fsC3a else if d = "b" then some fsC3b else none

def rC3 : Runner := New
  { migrationsDir := "", migrationsDirs := ["a", "b"], embeddedFSs := [],
    tableName := "t", lockKey := 5, allowDangerousDown := false }

/-- C3 counterexample: two directories both contain a file for
`(20240101, up)`, and the Up call does fail with the duplicate error — but
the trace shows the advisory lock WAS acquired first and the tracking table
WAS ensured (created) before the failure, contradicting "this failure
occurs before the advisory lock is acquired and before the tracking table
is created or touched". -/
theorem up_duplicate_after_lock_and_table_cex :
    (Up sampleHash worldC3 okBeh rC3 emptyState).1.1
      = .error (.loadErr "duplicate migration for version 20240101 dir up")
    ∧ (Up sampleHash worldC3 okBeh rC3 emptyState).2.trace
      = [.lockAcquired 5, .ensureTable "t", .lockReleased 5]
    ∧ (Up sampleHash worldC3 okBeh rC3 emptyState).2.tableExists = true :=
  ⟨rfl, rfl, rfl⟩

theorem up_load_failure_after_lock_witness :
    Up sampleHash worldC3 okBeh rC3 emptyState
      = ((.error (.loadErr "duplicate migration for version 20240101 dir up"), rC3),
         { emptyState with
           tableExists := true
           trace := [.lockAcquired 5, .ensureTable "t", .lockReleased 5] }) := by
  have h := (up_load_failure_after_lock sampleHash worldC3 okBeh rC3 emptyState
    rfl rfl).1 "duplicate migration for version 20240101 dir up" rfl
  simpa using h

/-! ### C1 — checksum drift aborts Up before any mutation -/

/-- The step function of the `appliedSet` fold in `pendingUp`. -/
def appliedSetStep (v : Int) (acc : Option AppliedRow) (a : AppliedRow) : Option AppliedRow :=
  if a.success then (if a.version = v then some a else acc) else acc

theorem appliedSetLookup_eq_foldl (l : List AppliedRow) (v : Int) :
    appliedSetLookup l v = l.foldl (appliedSetStep v) none := by
  unfold appliedSetLookup appliedSetStep
  rfl

theorem appliedSetFold_mem (v : Int) :
    ∀ (l : List AppliedRow) (acc : Option AppliedRow) (x : AppliedRow),
    l.foldl (appliedSetStep v) acc = some x →
    (x ∈ l ∧ x.success = true ∧ x.version = v) ∨ acc = some x := by
  intro l
  induction l with
  | nil => intro acc x h; exact Or.inr h
  | cons a l ih =>
    intro acc x h
    rw [List.foldl_cons] at h
    rcases ih (appliedSetStep v acc a) x h with ⟨hm, hs, hv⟩ | hacc
    · exact Or.inl ⟨List.mem_cons_of_mem a hm, hs, hv⟩
    · unfold appliedSetStep at hacc
      by_cases has : a.success = true
      · by_cases hav : a.version = v
        · rw [if_pos has, if_pos hav] at hacc
          cases hacc
          exact Or.inl ⟨List.mem_cons_self a l, has, hav⟩
        · rw [if_pos has, if_neg hav] at hacc
          exact Or.inr hacc
      · rw [if_neg has] at hacc
        exact Or.inr hacc

theorem appliedSetFold_isSome (v : Int) :
    ∀ (l : List AppliedRow) (acc : Option AppliedRow),
    acc ≠ none → l.foldl (appliedSetStep v) acc ≠ none := by
  intro l
  induction l with
  | nil => intro acc h; exact h
  | cons a l ih =>
    intro acc h
    rw [List.foldl_cons]
    apply ih
    unfold appliedSetStep
    by_cases has : a.success = true
    · by_cases hav : a.version = v <;> simp [has, hav, h]
    · simp [has, h]

theorem appliedSetFold_mem_isSome (v : Int) :
    ∀ (l : List AppliedRow) (acc : Option AppliedRow) (x : AppliedRow),
    x ∈ l → x.success = true → x.version = v →
    l.foldl (appliedSetStep v) acc ≠ none := by
  intro l
  induction l with
  | nil => intro acc x hx; exact absurd hx (List.not_mem_nil x)
  | cons a l ih =>
    intro acc x hx hs hv
    rw [List.foldl_cons]
    rcases List.mem_cons.mp hx with hxa | hxl
    · apply appliedSetFold_isSome
      unfold appliedSetStep
      rw [← hxa, hs, hv]
      simp
    · exact ih (appliedSetStep v acc a) x hxl hs hv

/-- With unique versions (as in a real table, where `version` is the primary
key), the `appliedSet` map of `pendingUp` returns exactly the `success=true`
row of the looked-up version. -/
theorem appliedSetLookup_unique {l : List AppliedRow} {a : AppliedRow}
    (hnd : (l.map AppliedRow.version).Nodup) (ha : a ∈ l) (hs : a.success = true) :
    appliedSetLookup l a.version = some a := by
  rw [appliedSetLookup_eq_foldl]
  cases h : l.foldl (appliedSetStep a.version) none with
  | none => exact absurd h (appliedSetFold_mem_isSome a.version l none a ha hs rfl)
  | some x =>
    rcases appliedSetFold_mem a.version l none x h with ⟨hm, _, hv⟩ | habs
    · have : x = a := List.inj_on_of_nodup_map hnd hm ha hv
      rw [this]
    · exact absurd habs (by simp)

/-- If some loaded up script has an applied record (in the `appliedSet`
sense) with a different checksum, the `pendingUp` loop reaches a checksum
mismatch and panics — modelled as the fatal drift error. -/
theorem pendingUpAux_drift (applied : List AppliedRow) :
    ∀ migs : List Migration,
    (∃ m ∈ migs, m.dir = "up" ∧
      ∃ a, appliedSetLookup applied m.version = some a ∧ a.checksum ≠ m.checksum) →
    ∃ (v : Int) (c1 c2 : String), pendingUpAux applied migs = .error (.drift v c1 c2) := by
  intro migs
  induction migs with
  | nil => intro h; simp at h
  | cons m0 ms ih =>
    intro h
    obtain ⟨m, hm, hdir, a, hlook, hne⟩ := h
    by_cases hd0 : m0.dir = "up"
    · cases hl0 : appliedSetLookup applied m0.version with
      | some a0 =>
        by_cases hc0 : a0.checksum ≠ m0.checksum
        · exact ⟨m0.version, a0.checksum, m0.checksum, by
            unfold pendingUpAux
            simp [hd0, hl0, hc0]⟩
        · push_neg at hc0
          have hms : m ∈ ms := by
            rcases List.mem_cons.mp hm with hm0 | hms
            · subst hm0
              rw [hl0] at hlook
              cases hlook
              exact absurd hc0 hne
            · exact hms
          obtain ⟨v, c1, c2, hvd⟩ := ih ⟨m, hms, hdir, a, hlook, hne⟩
          exact ⟨v, c1, c2, by
            unfold pendingUpAux
            simp [hd0, hl0, hc0, hvd]⟩
      | none =>
        have hms : m ∈ ms := by
          rcases List.mem_cons.mp hm with hm0 | hms
          · subst hm0
            rw [hl0] at hlook
            cases hlook
          · exact hms
        obtain ⟨v, c1, c2, hvd⟩ := ih ⟨m, hms, hdir, a, hlook, hne⟩
        exact ⟨v, c1, c2, by
          unfold pendingUpAux
          simp [hd0, hl0, hvd]⟩
    · have hms : m ∈ ms := by
        rcases List.mem_cons.mp hm with hm0 | hms
        · subst hm0; exact absurd hdir hd0
        · exact hms
      obtain ⟨v, c1, c2, hvd⟩ := ih ⟨m, hms, hdir, a, hlook, hne⟩
      exact ⟨v, c1, c2, by
        unfold pendingUpAux
        simp [hd0, hvd]⟩

/-- C1: For every Up call, if some version has a `success=true` applied
record whose stored checksum differs from the checksum of the currently
loaded Up script of that version, Up aborts with a fatal drift error
(in Go a `panic` that propagates to the caller) before any migration is
applied and before any record is written: the rows are unchanged and the
only traced commands are the lock, the idempotent table create, the row
query, and the unlock — the script is neither silently re-run nor skipped.
(Versions are unique among the rows, as `version` is the table's primary
key.) -/
theorem up_drift_aborts_before_mutation (hash : String → String)
    (dirFS : String → Option FSDir) (b : DBBehavior) (r r1 : Runner)
    (s : DBState) (a : AppliedRow) (m : Migration)
    (hl : b.lockOk = true) (he : b.ensureOk = true) (hq : b.queryOk = true)
    (hload : loadMigrations hash dirFS r = .ok r1)
    (hnd : (s.rows.map AppliedRow.version).Nodup)
    (hm : m ∈ r1.migrations) (hdir : m.dir = "up")
    (ha : a ∈ s.rows) (hs : a.success = true) (hv : a.version = m.version)
    (hne : a.checksum ≠ m.checksum) :
    ∃ (v : Int) (c1 c2 : String),
      Up hash dirFS b r s = ((.error (.drift v c1 c2), r1),
        { s with
          tableExists := true
          trace := s.trace ++ [.lockAcquired r.opts.lockKey,
            .ensureTable r.opts.tableName, .queryApplied r.opts.tableName,
            .lockReleased r.opts.lockKey] }) := by
  have hopts : r1.opts = r.opts := loadMigrations_ok_opts hload
  have hperm := List.perm_insertionSort rowLE s.rows
  have hnd2 : ((List.insertionSort rowLE s.rows).map AppliedRow.version).Nodup :=
    ((hperm.map AppliedRow.version).nodup_iff).mpr hnd
  have ha2 : a ∈ List.insertionSort rowLE s.rows := hperm.mem_iff.mpr ha
  have hlook : appliedSetLookup (List.insertionSort rowLE s.rows) m.version = some a := by
    rw [← hv]
    exact appliedSetLookup_unique hnd2 ha2 hs
  obtain ⟨v, c1, c2, hvd⟩ := pendingUpAux_drift (List.insertionSort rowLE s.rows)
    r1.migrations ⟨m, hm, hdir, a, hlook, hne⟩
  refine ⟨v, c1, c2, ?_⟩
  unfold Up withLock upBody ensureTable loadApplied pendingUp addEvent
  simp [hl, he, hq, hload, hopts, hvd]

def mC1 : Migration :=
  { version := 20240101, name := "first", dir := "up", file := "f",
    sql := "create a;", checksum := "sha:new" }

def rC1 : Runner :=
  { opts := { migrationsDir := "", migrationsDirs := [], embeddedFSs := [],
              tableName := "t", lockKey := 3, allowDangerousDown := false },
    migrations := [mC1], loaded := true }

def rowC1 : AppliedRow :=
  { version := 20240101, name := "first", checksum := "sha:old", appliedAt := 1,
    execMS := 4, success := true }

def sC1 : DBState := { tableExists := true, rows := [rowC1], clock := 2, trace := [] }

theorem up_drift_aborts_before_mutation_witness :
    (rowC1.success = true ∧ rowC1.checksum ≠ mC1.checksum) ∧
    ∃ (v : Int) (c1 c2 : String),
      Up sampleHash noFS okBeh rC1 sC1 = ((.error (.drift v c1 c2), rC1),
        { sC1 with
          tableExists := true
          trace := [.lockAcquired 3, .ensureTable "t", .queryApplied "t",
            .lockReleased 3] }) := by
  refine ⟨⟨rfl, by decide⟩, ?_⟩
  have h := up_drift_aborts_before_mutation sampleHash noFS okBeh rC1 rC1 sC1
    rowC1 mC1 rfl rfl rfl (loadMigrations_loaded rfl) (by decide)
    (by simp [rC1]) rfl (by simp [sC1]) rfl rfl (by decide)
  simpa using h

/-! ### C4 — fail-fast on a failing script -/

/-- Once a prefix of the batch has been applied successfully, the loop
continues from the reached state. -/
theorem applyAll_append_ok (b : DBBehavior) :
    ∀ (p1 : List Migration) (rest : List Migration) (s sA : DBState),
    applyAll b p1 s = (.ok (), sA) →
    applyAll b (p1 ++ rest) s = applyAll b rest sA := by
  intro p1
  induction p1 with
  | nil =>
    intro rest s sA h
    unfold applyAll at h
    cases h
    rfl
  | cons m p1 ih =>
    intro rest s sA h
    rw [List.cons_append]
    cases ho : applyOne b m s with
    | mk res s1 =>
      cases res with
      | error e =>
        have hL : applyAll b (m :: p1) s = (Except.error e, s1) := by
          conv_lhs => unfold applyAll
          rw [ho]
        rw [hL] at h
        simp at h
      | ok u =>
        have hL : applyAll b (m :: p1) s = applyAll b p1 s1 := by
          conv_lhs => unfold applyAll
          rw [ho]
        have hG : applyAll b (m :: (p1 ++ rest)) s = applyAll b (p1 ++ rest) s1 := by
          conv_lhs => unfold applyAll
          rw [ho]
        rw [hL] at h
        rw [hG]
        exact ih rest s1 sA h

/-- `applyOne` on a script whose SQL execution fails: rollback, persist the
`success=false` record with the measured time, return the execution error. -/
theorem applyOne_execFail (b : DBBehavior) (m : Migration) (s : DBState)
    (hb : b.beginOk = true) (hex : b.execOk m.sql = false)
    (hrec : b.recordOk m.version = true) :
    applyOne b m s = (.error (.execFailed m.version),
      { s with
        rows := upsertRow s.rows
          { version := m.version, name := m.name, checksum := m.checksum,
            appliedAt := s.clock, execMS := b.execMS m.sql, success := false }
        clock := s.clock + 1
        trace := s.trace ++ [.beginTx, .execSQL m.sql, .rollbackTx,
          .upsert m.version false] }) := by
  unfold applyOne record addEvent
  simp [hb, hex, hrec]

/-- C4: For every Up call with a non-empty pending set `p1 ++ m :: p2`, if
the scripts of `p1` all apply successfully (reaching state `sA`) and the
SQL execution of `m` fails, the transaction is rolled back, a
`success=false` applied record with the measured execution time is
persisted for `m`, and the call returns the execution error immediately:
the final state is expressed entirely in terms of `sA` and `m` — no script
of `p2` is executed or recorded (no command of the later scripts appears
in the trace and no row of theirs is written). -/
theorem up_fail_fast (hash : String → String) (dirFS : String → Option FSDir)
    (b : DBBehavior) (r r1 : Runner) (s sA : DBState)
    (p1 p2 : List Migration) (m : Migration)
    (hl : b.lockOk = true) (he : b.ensureOk = true) (hq : b.queryOk = true)
    (hload : loadMigrations hash dirFS r = .ok r1)
    (hpend : pendingUp r1.migrations (List.insertionSort rowLE s.rows)
      = .ok (p1 ++ m :: p2))
    (hp1 : applyAll b p1
      { s with
        tableExists := true
        trace := s.trace ++ [.lockAcquired r.opts.lockKey,
          .ensureTable r.opts.tableName, .queryApplied r.opts.tableName] }
      = (.ok (), sA))
    (hb : b.beginOk = true) (hex : b.execOk m.sql = false)
    (hrec : b.recordOk m.version = true) :
    Up hash dirFS b r s = ((.error (.execFailed m.version), r1),
      { sA with
        rows := upsertRow sA.rows
          { version := m.version, name := m.name, checksum := m.checksum,
            appliedAt := sA.clock, execMS := b.execMS m.sql, success := false }
        clock := sA.clock + 1
        trace := sA.trace ++ [.beginTx, .execSQL m.sql, .rollbackTx,
          .upsert m.version false, .lockReleased r.opts.lockKey] }) := by
  have hopts : r1.opts = r.opts := loadMigrations_ok_opts hload
  have hne : ¬ (p1 ++ m :: p2 = []) := by simp
  unfold Up withLock upBody ensureTable loadApplied addEvent
  rw [hl]
  simp only [if_true, hopts, he, hq, hload, if_pos]
  rw [hpend]
  simp only [hne, if_neg, if_false]
  rw [applyAll_append_ok b p1 (m :: p2) _ sA (by
    simpa [List.append_assoc] using hp1)]
  unfold applyAll
  rw [applyOne_execFail b m sA hb hex hrec]
  simp [List.append_assoc]

def mC4a : Migration :=
  { version := 1, name := "a", dir := "up", file := "fa", sql := "create a;",
    checksum := "ca" }

def mC4b : Migration :=
  { version := 2, name := "b", dir := "up", file := "fb", sql := "bad;",
    checksum := "cb" }

def mC4c : Migration :=
  { version := 3, name := "c", dir := "up", file := "fc", sql := "create c;",
    checksum := "cc" }

def rC4 : Runner :=
  { opts := { migrationsDir := "", migrationsDirs := [], embeddedFSs := [],
              tableName := "t", lockKey := 3, allowDangerousDown := false },
    migrations := [mC4a, mC4b, mC4c], loaded := true }

/-- A backend on which only the statement `bad;` fails. -/
def behC4 : DBBehavior :=
  { lockOk := true, ensureOk := true, queryOk := true, beginOk := true,
    execOk := fun sql => sql ≠ "bad;", commitOk := fun _ => true,
    recordOk := fun _ => true, deleteOk := fun _ => true, execMS := fun _ => 5 }

theorem up_fail_fast_witness :
    (Up sampleHash noFS behC4 rC4 emptyState).1.1 = .error (.execFailed 2)
    ∧ (Up sampleHash noFS behC4 rC4 emptyState).2.rows.map
        (fun a => (a.version, a.success)) = [(1, true), (2, false)]
    ∧ Up sampleHash noFS behC4 rC4 emptyState = ((.error (.execFailed 2), rC4),
      { tableExists := true,
        rows := [{ version := 1, name := "a", checksum := "ca", appliedAt := 0,
                   execMS := 5, success := true },
                 { version := 2, name := "b", checksum := "cb", appliedAt := 1,
                   execMS := 5, success := false }],
        clock := 2,
        trace := [.lockAcquired 3, .ensureTable "t", .queryApplied "t",
          .beginTx, .execSQL "create a;", .commitTx, .upsert 1 true,
          .beginTx, .execSQL "bad;", .rollbackTx, .upsert 2 false,
          .lockReleased 3] }) := by
  have h := up_fail_fast sampleHash noFS behC4 rC4 rC4 emptyState
    { tableExists := true,
      rows := [{ version := 1, name := "a", checksum := "ca", appliedAt := 0,
                 execMS := 5, success := true }],
      clock := 1,
      trace := [.lockAcquired 3, .ensureTable "t", .queryApplied "t",
        .beginTx, .execSQL "create a;", .commitTx, .upsert 1 true] }
    [mC4a] [mC4c] mC4b rfl rfl rfl (loadMigrations_loaded rfl) rfl
    rfl rfl rfl rfl
  refine ⟨?_, ?_, ?_⟩
  · rw [h]
    rfl
  · rw [h]
    rfl
  · rw [h]
    rfl

/-! ### C7 — Up is idempotent -/

theorem upsertRow_mem_self (rows : List AppliedRow) (x : AppliedRow) :
    x ∈ upsertRow rows x := by
  unfold upsertRow
  by_cases hany : rows.any (fun y => y.version = x.version)
  · rw [if_pos hany]
    obtain ⟨y, hy, hyv⟩ := List.any_eq_true.mp hany
    refine List.mem_map.mpr ⟨y, hy, ?_⟩
    simp at hyv
    rw [if_pos hyv]
  · rw [if_neg hany]
    exact List.mem_append_right rows (List.mem_singleton.mpr rfl)

theorem upsertRow_mem_preserved {rows : List AppliedRow} {a x : AppliedRow}
    (ha : a ∈ rows) (hv : a.version ≠ x.version) : a ∈ upsertRow rows x := by
  unfold upsertRow
  by_cases hany : rows.any (fun y => y.version = x.version)
  · rw [if_pos hany]
    refine List.mem_map.mpr ⟨a, ha, ?_⟩
    rw [if_neg hv]
  · rw [if_neg hany]
    exact List.mem_append_left _ ha

theorem upsertRow_nodup {rows : List AppliedRow} (x : AppliedRow)
    (hnd : (rows.map AppliedRow.version).Nodup) :
    ((upsertRow rows x).map AppliedRow.version).Nodup := by
  unfold upsertRow
  by_cases hany : rows.any (fun y => y.version = x.version)
  · rw [if_pos hany]
    have : (rows.map (fun y => if y.version = x.version then x else y)).map
        AppliedRow.version = rows.map AppliedRow.version := by
      rw [List.map_map]
      refine List.map_congr_left ?_
      intro y _
      by_cases hyv : y.version = x.version
      · simp [hyv]
      · simp [hyv]
    rw [this]
    exact hnd
  · rw [if_neg hany, List.map_append]
    refine List.Nodup.append hnd (by simp) ?_
    intro v hv1 hv2
    simp at hv2
    obtain ⟨y, hy, hyv⟩ := List.mem_map.mp hv1
    rw [List.any_eq_true] at hany
    push_neg at hany
    have hne := hany y hy
    simp at hne
    exact hne (by rw [hyv, hv2])

/-- Full characterization of `applyOne` on the all-success path. -/
theorem applyOne_ok_state {b : DBBehavior} {m : Migration} {s s1 : DBState} {u : Unit}
    (h : applyOne b m s = (.ok u, s1)) :
    s1 = { s with
      rows := upsertRow s.rows
        { version := m.version, name := m.name, checksum := m.checksum,
          appliedAt := s.clock, execMS := b.execMS m.sql, success := true }
      clock := s.clock + 1
      trace := s.trace ++ [.beginTx, .execSQL m.sql, .commitTx,
        .upsert m.version true] } := by
  unfold applyOne record addEvent at h
  by_cases hb : b.beginOk <;> by_cases hex : b.execOk m.sql <;>
    by_cases hc : b.commitOk m.version <;> by_cases hr : b.recordOk m.version <;>
    simp [hb, hex, hc, hr] at h
  all_goals rw [← h]

theorem applyAll_rows_preserved {b : DBBehavior} :
    ∀ (p : List Migration) (s s1 : DBState) (u : Unit),
    applyAll b p s = (.ok u, s1) →
    ∀ a ∈ s.rows, (∀ m ∈ p, m.version ≠ a.version) → a ∈ s1.rows := by
  intro p
  induction p with
  | nil =>
    intro s s1 u h a ha _
    unfold applyAll at h
    cases h
    exact ha
  | cons m p ih =>
    intro s s1 u h a ha hver
    have hstep : applyAll b (m :: p) s = match applyOne b m s with
      | (.ok _, s2) => applyAll b p s2
      | (.error e, s2) => (.error e, s2) := by
      conv_lhs => unfold applyAll
    rw [hstep] at h
    cases ho : applyOne b m s with
    | mk res s2 =>
      rw [ho] at h
      cases res with
      | error e => simp at h
      | ok v =>
        simp only at h
        have hs2 := applyOne_ok_state ho
        have ha2 : a ∈ s2.rows := by
          rw [hs2]
          exact upsertRow_mem_preserved ha
            (fun hc => hver m (List.mem_cons_self m p) hc.symm)
        exact ih s2 s1 u h a ha2 (fun m2 hm2 => hver m2 (List.mem_cons_of_mem m hm2))

theorem applyAll_nodup {b : DBBehavior} :
    ∀ (p : List Migration) (s s1 : DBState) (u : Unit),
    applyAll b p s = (.ok u, s1) →
    (s.rows.map AppliedRow.version).Nodup → (s1.rows.map AppliedRow.version).Nodup := by
  intro p
  induction p with
  | nil =>
    intro s s1 u h hnd
    unfold applyAll at h
    cases h
    exact hnd
  | cons m p ih =>
    intro s s1 u h hnd
    have hstep : applyAll b (m :: p) s = match applyOne b m s with
      | (.ok _, s2) => applyAll b p s2
      | (.error e, s2) => (.error e, s2) := by
      conv_lhs => unfold applyAll
    rw [hstep] at h
    cases ho : applyOne b m s with
    | mk res s2 =>
      rw [ho] at h
      cases res with
      | error e => simp at h
      | ok v =>
        simp only at h
        have hs2 := applyOne_ok_state ho
        refine ih s2 s1 u h ?_
        rw [hs2]
        exact upsertRow_nodup _ hnd

theorem applyAll_records {b : DBBehavior} :
    ∀ (p : List Migration) (s s1 : DBState) (u : Unit),
    applyAll b p s = (.ok u, s1) →
    (p.map Migration.version).Nodup →
    ∀ m ∈ p, ∃ a ∈ s1.rows,
      a.success = true ∧ a.version = m.version ∧ a.checksum = m.checksum := by
  intro p
  induction p with
  | nil =>
    intro s s1 u _ _ m hm
    exact absurd hm (List.not_mem_nil m)
  | cons m0 p ih =>
    intro s s1 u h hnd m hm
    have hstep : applyAll b (m0 :: p) s = match applyOne b m0 s with
      | (.ok _, s2) => applyAll b p s2
      | (.error e, s2) => (.error e, s2) := by
      conv_lhs => unfold applyAll
    rw [hstep] at h
    cases ho : applyOne b m0 s with
    | mk res s2 =>
      rw [ho] at h
      cases res with
      | error e => simp at h
      | ok v =>
        simp only at h
        have hs2 := applyOne_ok_state ho
        rw [List.map_cons, List.nodup_cons] at hnd
        rcases List.mem_cons.mp hm with hm0 | hmp
        · subst hm0
          have hrow :
              ({ version := m.version, name := m.name, checksum := m.checksum,
                 appliedAt := s.clock, execMS := b.execMS m.sql,
                 success := true } : AppliedRow) ∈ s2.rows := by
            rw [hs2]
            exact upsertRow_mem_self s.rows _
          have hsurv := applyAll_rows_preserved p s2 s1 u h _ hrow (by
            intro m2 hm2 hveq
            have hveq2 : m2.version = m.version := by simpa using hveq
            exact hnd.1 (by
              rw [← hveq2]
              exact List.mem_map.mpr ⟨m2, hm2, rfl⟩))
          exact ⟨_, hsurv, rfl, rfl, rfl⟩
        · exact ih s2 s1 u h hnd.2 m hmp

theorem appliedSetLookup_mem {l : List AppliedRow} {v : Int} {x : AppliedRow}
    (h : appliedSetLookup l v = some x) :
    x ∈ l ∧ x.success = true ∧ x.version = v := by
  rw [appliedSetLookup_eq_foldl] at h
  rcases appliedSetFold_mem v l none x h with hgood | habs
  · exact hgood
  · exact absurd habs (by simp)

/-- Completeness of the `pendingUp` loop: every up script is either pending
or has an `appliedSet` record with matching checksum. -/
theorem pendingUpAux_ok_mem {applied : List AppliedRow} :
    ∀ {migs pending : List Migration},
    pendingUpAux applied migs = .ok pending →
    ∀ m ∈ migs, m.dir = "up" →
      m ∈ pending ∨ ∃ a, appliedSetLookup applied m.version = some a
        ∧ a.checksum = m.checksum := by
  intro migs
  induction migs with
  | nil =>
    intro pending _ m hm
    exact absurd hm (List.not_mem_nil m)
  | cons m0 ms ih =>
    intro pending h m hm hdir
    unfold pendingUpAux at h
    rcases List.mem_cons.mp hm with hm0 | hms
    · subst hm0
      rw [if_neg (by simp [hdir])] at h
      cases hl0 : appliedSetLookup applied m.version with
      | some a0 =>
        rw [hl0] at h
        simp only [] at h
        by_cases hc0 : a0.checksum ≠ m.checksum
        · rw [if_pos hc0] at h
          simp at h
        · push_neg at hc0
          exact Or.inr ⟨a0, rfl, hc0⟩
      | none =>
        rw [hl0] at h
        simp only [] at h
        cases hrest : pendingUpAux applied ms with
        | error e => rw [hrest] at h; simp at h
        | ok rest =>
          rw [hrest] at h
          simp only [] at h
          cases h
          exact Or.inl (List.mem_cons_self m rest)
    · by_cases hd0 : m0.dir = "up"
      · rw [if_neg (by simp [hd0])] at h
        cases hl0 : appliedSetLookup applied m0.version with
        | some a0 =>
          rw [hl0] at h
          simp only [] at h
          by_cases hc0 : a0.checksum ≠ m0.checksum
          · rw [if_pos hc0] at h
            simp at h
          · rw [if_neg hc0] at h
            exact ih h m hms hdir
        | none =>
          rw [hl0] at h
          simp only [] at h
          cases hrest : pendingUpAux applied ms with
          | error e => rw [hrest] at h; simp at h
          | ok rest =>
            rw [hrest] at h
            simp only [] at h
            cases h
            rcases ih hrest m hms hdir with hpend | hrec
            · exact Or.inl (List.mem_cons_of_mem m0 hpend)
            · exact Or.inr hrec
      · rw [if_pos (by simp [hd0])] at h
        exact ih h m hms hdir

/-- The pending list is a sublist of the up scripts, in order. -/
theorem pendingUpAux_sublist {applied : List AppliedRow} :
    ∀ {migs pending : List Migration},
    pendingUpAux applied migs = .ok pending →
    pending.Sublist (migs.filter (fun m => m.dir = "up")) := by
  intro migs
  induction migs with
  | nil =>
    intro pending h
    unfold pendingUpAux at h
    cases h
    simp
  | cons m0 ms ih =>
    intro pending h
    unfold pendingUpAux at h
    by_cases hd0 : m0.dir = "up"
    · rw [if_neg (by simp [hd0])] at h
      rw [List.filter_cons_of_pos (by simp [hd0])]
      cases hl0 : appliedSetLookup applied m0.version with
      | some a0 =>
        rw [hl0] at h
        simp only [] at h
        by_cases hc0 : a0.checksum ≠ m0.checksum
        · rw [if_pos hc0] at h
          simp at h
        · rw [if_neg hc0] at h
          exact (ih h).cons m0
      | none =>
        rw [hl0] at h
        simp only [] at h
        cases hrest : pendingUpAux applied ms with
        | error e => rw [hrest] at h; simp at h
        | ok rest =>
          rw [hrest] at h
          simp only [] at h
          cases h
          exact (ih hrest).cons₂ m0
    · rw [if_pos (by simp [hd0])] at h
      rw [List.filter_cons_of_neg (by simp [hd0])]
      exact ih h

/-- If every up script has a matching success row (unique versions), the
`pendingUp` loop skips them all. -/
theorem pendingUpAux_all_applied {applied : List AppliedRow}
    (hnd : (applied.map AppliedRow.version).Nodup) :
    ∀ {migs : List Migration},
    (∀ m ∈ migs, m.dir = "up" →
      ∃ a ∈ applied, a.success = true ∧ a.version = m.version
        ∧ a.checksum = m.checksum) →
    pendingUpAux applied migs = .ok [] := by
  intro migs
  induction migs with
  | nil => intro _; rfl
  | cons m0 ms ih =>
    intro h
    unfold pendingUpAux
    by_cases hd0 : m0.dir = "up"
    · obtain ⟨a, ha, hs, hv, hc⟩ := h m0 (List.mem_cons_self m0 ms) hd0
      have hlook : appliedSetLookup applied m0.version = some a := by
        rw [← hv]
        exact appliedSetLookup_unique hnd ha hs
      rw [if_neg (by simp [hd0]), hlook]
      simp only []
      rw [if_neg (by simp [hc])]
      exact ih (fun m hm hdir => h m (List.mem_cons_of_mem m0 hm) hdir)
    · rw [if_pos (by simp [hd0])]
      exact ih (fun m hm hdir => h m (List.mem_cons_of_mem m0 hm) hdir)

/-- An Up call whose pending set is empty is a successful no-op. -/
theorem up_noop (hash : String → String) (dirFS : String → Option FSDir)
    (b : DBBehavior) (r r1 : Runner) (s : DBState)
    (hl : b.lockOk = true) (he : b.ensureOk = true) (hq : b.queryOk = true)
    (hload : loadMigrations hash dirFS r = .ok r1)
    (hpend : pendingUp r1.migrations (List.insertionSort rowLE s.rows) = .ok []) :
    Up hash dirFS b r s = ((.ok (), r1),
      { s with
        tableExists := true
        trace := s.trace ++ [.lockAcquired r.opts.lockKey,
          .ensureTable r.opts.tableName, .queryApplied r.opts.tableName,
          .lockReleased r.opts.lockKey] }) := by
  have hopts : r1.opts = r.opts := loadMigrations_ok_opts hload
  unfold Up withLock upBody ensureTable loadApplied addEvent
  simp [hl, he, hq, hload, hopts, hpend]

theorem pendingUp_ok_elim {migs : List Migration} {applied : List AppliedRow}
    {pending : List Migration} (h : pendingUp migs applied = .ok pending) :
    ∃ p0, pendingUpAux applied migs = .ok p0
      ∧ pending = List.insertionSort pendingVersionLE p0 := by
  unfold pendingUp at h
  cases haux : pendingUpAux applied migs with
  | error e =>
    rw [haux] at h
    simp at h
  | ok p0 =>
    rw [haux] at h
    simp only [] at h
    cases h
    exact ⟨p0, rfl, rfl⟩

/-- Dissection of a successful Up run: the backend oracles it exercised,
the load result, and either an empty pending set (rows untouched) or a
successful `applyAll` run that produced the final rows. -/
theorem up_run_elim {hash : String → String} {dirFS : String → Option FSDir}
    {b : DBBehavior} {r r1 : Runner} {s s1 : DBState}
    (h1 : Up hash dirFS b r s = ((.ok (), r1), s1)) :
    b.lockOk = true ∧ b.ensureOk = true ∧ b.queryOk = true
    ∧ loadMigrations hash dirFS r = .ok r1
    ∧ ∃ pending, pendingUp r1.migrations (List.insertionSort rowLE s.rows) = .ok pending
      ∧ ((pending = [] ∧ s1.rows = s.rows)
        ∨ ∃ (u : Unit) (s3 : DBState), applyAll b pending
            { s with
              tableExists := true
              trace := s.trace ++ [.lockAcquired r.opts.lockKey,
                .ensureTable r.opts.tableName, .queryApplied r.opts.tableName] }
            = (.ok u, s3) ∧ s1.rows = s3.rows) := by
  by_cases hlock : b.lockOk
  case neg =>
    unfold Up withLock at h1
    simp [hlock] at h1
  by_cases he : b.ensureOk
  case neg =>
    unfold Up withLock upBody ensureTable at h1
    simp [hlock, he] at h1
  cases hld : loadMigrations hash dirFS r with
  | error e =>
    unfold Up withLock upBody ensureTable at h1
    simp [hlock, he, hld] at h1
  | ok r2 =>
    have hopts : r2.opts = r.opts := loadMigrations_ok_opts hld
    by_cases hq : b.queryOk
    case neg =>
      unfold Up withLock upBody ensureTable loadApplied addEvent at h1
      simp [hlock, he, hld, hq] at h1
    cases hpend : pendingUp r2.migrations (List.insertionSort rowLE s.rows) with
    | error e =>
      unfold Up withLock upBody ensureTable loadApplied addEvent at h1
      simp [hlock, he, hld, hq, hopts, hpend] at h1
    | ok pending =>
      by_cases hpe : pending = []
      · unfold Up withLock upBody ensureTable loadApplied addEvent at h1
        simp [hlock, he, hld, hq, hopts, hpend, hpe] at h1
        obtain ⟨hr2, hs1⟩ := h1
        subst hr2
        refine ⟨by simpa using hlock, by simpa using he, by simpa using hq, rfl,
          pending, hpend, Or.inl ⟨hpe, ?_⟩⟩
        rw [← hs1]
      · cases happ : applyAll b pending
          { s with
            tableExists := true
            trace := s.trace ++ [.lockAcquired r.opts.lockKey,
              .ensureTable r.opts.tableName, .queryApplied r.opts.tableName] } with
        | mk res s3 =>
          unfold Up withLock upBody ensureTable loadApplied addEvent at h1
          simp [hlock, he, hld, hq, hopts, hpend, hpe] at h1
          rw [show
              ({ tableExists := true
                 rows := s.rows
                 clock := s.clock
                 trace := s.trace ++ [Event.lockAcquired r.opts.lockKey,
                   Event.ensureTable r.opts.tableName,
                   Event.queryApplied r.opts.tableName] } : DBState)
            = { s with
                tableExists := true
                trace := s.trace ++ [.lockAcquired r.opts.lockKey,
                  .ensureTable r.opts.tableName, .queryApplied r.opts.tableName] }
            from rfl, happ] at h1
          cases res with
          | error e => simp at h1
          | ok u =>
            simp only [] at h1
            obtain ⟨⟨_, hr2⟩, hs1⟩ := h1
            subst hr2
            refine ⟨by simpa using hlock, by simpa using he, by simpa using hq, rfl,
              pending, hpend, Or.inr ⟨u, s3, happ, ?_⟩⟩
            rw [← hs1]

/-- C7: For every state in which an Up call has just completed successfully
(result `ok`, runner `r1`, database `s1`), a second Up call over the same
sources computes an empty pending set and returns success without applying
any script or writing any record: the rows are unchanged and the only new
backend commands are the lock, the idempotent table create, the row query
and the unlock. (Hypotheses: row versions are unique — `version` is the
primary key — and the loaded up scripts have unique versions, which
`loadMigrations` guarantees via its duplicate check.) -/
theorem up_idempotent (hash : String → String) (dirFS : String → Option FSDir)
    (b : DBBehavior) (r r1 : Runner) (s s1 : DBState)
    (hnd : (s.rows.map AppliedRow.version).Nodup)
    (hup : ((r1.migrations.filter (fun m => m.dir = "up")).map Migration.version).Nodup)
    (h1 : Up hash dirFS b r s = ((.ok (), r1), s1)) :
    pendingUp r1.migrations (List.insertionSort rowLE s1.rows) = .ok []
    ∧ Up hash dirFS b r1 s1 = ((.ok (), r1),
        { s1 with
          tableExists := true
          trace := s1.trace ++ [.lockAcquired r1.opts.lockKey,
            .ensureTable r1.opts.tableName, .queryApplied r1.opts.tableName,
            .lockReleased r1.opts.lockKey] }) := by
  obtain ⟨hlock, he, hq, hload, pending, hpend, hcase⟩ := up_run_elim h1
  have hloaded : r1.loaded = true := loadMigrations_ok_loaded hload
  obtain ⟨p0, haux, hpsort⟩ := pendingUp_ok_elim hpend
  have hpermS : List.Perm (List.insertionSort rowLE s.rows) s.rows :=
    List.perm_insertionSort rowLE s.rows
  have hup2 : ∀ m ∈ r1.migrations, m.dir = "up" →
      ∃ a ∈ List.insertionSort rowLE s1.rows,
        a.success = true ∧ a.version = m.version ∧ a.checksum = m.checksum := by
    have hperm1 : List.Perm (List.insertionSort rowLE s1.rows) s1.rows :=
      List.perm_insertionSort rowLE s1.rows
    rcases hcase with ⟨hpe, hrows⟩ | ⟨u, s3, happ, hrows⟩
    · subst hpe
      have hp0 : p0 = [] := by
        have hperm0 : List.Perm (List.insertionSort pendingVersionLE p0) p0 :=
          List.perm_insertionSort pendingVersionLE p0
        rw [← hpsort] at hperm0
        exact hperm0.symm.eq_nil
      intro m hm hdir
      rcases pendingUpAux_ok_mem haux m hm hdir with hmem | ⟨a, hlook, hcs⟩
      · rw [hp0] at hmem
        exact absurd hmem (List.not_mem_nil m)
      · obtain ⟨hamem, hasucc, haver⟩ := appliedSetLookup_mem hlook
        have : a ∈ s1.rows := by
          rw [hrows]
          exact hpermS.mem_iff.mp hamem
        exact ⟨a, hperm1.mem_iff.mpr this, hasucc, haver, hcs⟩
    · have hpermP : List.Perm pending p0 := by
        rw [hpsort]
        exact List.perm_insertionSort pendingVersionLE p0
      have hsub := pendingUpAux_sublist haux
      have hndp0 : (p0.map Migration.version).Nodup :=
        List.Nodup.sublist (hsub.map Migration.version) hup
      have hndpen : (pending.map Migration.version).Nodup :=
        ((hpermP.map Migration.version).nodup_iff).mpr hndp0
      intro m hm hdir
      by_cases hm0 : m ∈ p0
      · have hmp : m ∈ pending := hpermP.mem_iff.mpr hm0
        obtain ⟨a, ha3, hasucc, haver, hacs⟩ :=
          applyAll_records pending _ s3 u happ hndpen m hmp
        have : a ∈ s1.rows := by
          rw [hrows]
          exact ha3
        exact ⟨a, hperm1.mem_iff.mpr this, hasucc, haver, hacs⟩
      · rcases pendingUpAux_ok_mem haux m hm hdir with hmem | ⟨a, hlook, hcs⟩
        · exact absurd hmem hm0
        · obtain ⟨hamem, hasucc, haver⟩ := appliedSetLookup_mem hlook
          have hains : a ∈ s.rows := hpermS.mem_iff.mp hamem
          have hsurv := applyAll_rows_preserved pending _ s3 u happ a hains (by
            intro m2 hm2 hveq
            exact hm0 (by
              have hm2p0 : m2 ∈ p0 := hpermP.mem_iff.mp hm2
              have hm2up : m2 ∈ r1.migrations.filter (fun x => x.dir = "up") :=
                hsub.subset hm2p0
              have hmup : m ∈ r1.migrations.filter (fun x => x.dir = "up") :=
                List.mem_filter.mpr ⟨hm, by simp [hdir]⟩
              have : m2 = m := List.inj_on_of_nodup_map hup hm2up hmup (by
                rw [hveq, haver])
              rw [← this]
              exact hm2p0))
          have : a ∈ s1.rows := by
            rw [hrows]
            exact hsurv
          exact ⟨a, hperm1.mem_iff.mpr this, hasucc, haver, hcs⟩
  have hnd1 : (s1.rows.map AppliedRow.version).Nodup := by
    rcases hcase with ⟨hpe, hrows⟩ | ⟨u, s3, happ, hrows⟩
    · rw [hrows]
      exact hnd
    · rw [hrows]
      exact applyAll_nodup pending _ s3 u happ (by simpa using hnd)
  have hndsorted : ((List.insertionSort rowLE s1.rows).map AppliedRow.version).Nodup :=
    (((List.perm_insertionSort rowLE s1.rows).map AppliedRow.version).nodup_iff).mpr hnd1
  have hauxnil := pendingUpAux_all_applied hndsorted hup2
  have hpend2 : pendingUp r1.migrations (List.insertionSort rowLE s1.rows) = .ok [] := by
    unfold pendingUp
    rw [hauxnil]
    rfl
  exact ⟨hpend2, up_noop hash dirFS b r1 r1 s1 hlock he hq
    (loadMigrations_loaded hloaded) hpend2⟩

def rC7 : Runner :=
  { opts := { migrationsDir := "", migrationsDirs := [], embeddedFSs := [],
              tableName := "t", lockKey := 3, allowDangerousDown := false },
    migrations := [mC4a, mC4c], loaded := true }

/-- The state produced by a first successful Up over `rC7`. -/
def s1C7 : DBState :=
  { tableExists := true,
    rows := [{ version := 1, name := "a", checksum := "ca", appliedAt := 0,
               execMS := 5, success := true },
             { version := 3, name := "c", checksum := "cc", appliedAt := 1,
               execMS := 5, success := true }],
    clock := 2,
    trace := [.lockAcquired 3, .ensureTable "t", .queryApplied "t",
      .beginTx, .execSQL "create a;", .commitTx, .upsert 1 true,
      .beginTx, .execSQL "create c;", .commitTx, .upsert 3 true,
      .lockReleased 3] }

theorem up_idempotent_witness :
    Up sampleHash noFS okBeh rC7 emptyState = ((.ok (), rC7), s1C7)
    ∧ pendingUp rC7.migrations (List.insertionSort rowLE s1C7.rows) = .ok []
    ∧ Up sampleHash noFS okBeh rC7 s1C7 = ((.ok (), rC7),
        { s1C7 with
          tableExists := true
          trace := s1C7.trace ++ [.lockAcquired 3, .ensureTable "t",
            .queryApplied "t", .lockReleased 3] }) := by
  have h := up_idempotent sampleHash noFS okBeh rC7 rC7 emptyState s1C7
    (by decide) (by decide) rfl
  refine ⟨rfl, h.1, ?_⟩
  have h2 := h.2
  simpa using h2

end Migrator
